import Mathlib

set_option maxRecDepth 100000

/-!
Verification development for the FinQuantOpt repository.

The repository's core transform is the LP-format converter implemented by the
class `LPFormatConverter` in `src/quick_fix_converter_2.py`, plus a small
LP line-repair loop embedded in `create_benchmark_suite` of
`src/portfolio_generator.py`.  This file gives a shallow embedding of those
functions over `List Char` / `String`, with Python floats modelled as exact
rationals (every coefficient exercised below has a short exact decimal
representation, for which Python's `float`/`repr` round-trip is exact), and
proves or refutes the specification claims against the embedding.

Conventions:
* `py`-prefixed helpers model the corresponding Python builtins on the inputs
  reachable in this code base (`str.strip`, `str.split`, `float`, `repr`).
* Each converter method keeps its Python name (minus the leading underscore).
* The regular-expression driven methods are embedded as deterministic
  scanners; each definition's doc comment records the regex it implements and
  the backtracking analysis justifying the deterministic translation.
-/

/-- Python whitespace class `\s` (ASCII part), also used by `str.strip()`:
space, tab, newline, carriage return, vertical tab, form feed. -/
def pyIsSpace (c : Char) : Bool :=
  c == ' ' || c == '\t' || c == '\n' || c == '\r' || c == '\x0b' || c == '\x0c'

/-- First character of the variable-name token class `[a-zA-Z_]`. -/
def varStart (c : Char) : Bool :=
  c.isAlpha || c == '_'

/-- Continuation characters of the variable-name token class
`[a-zA-Z0-9_\[\]]`. -/
def varCont (c : Char) : Bool :=
  c.isAlpha || c.isDigit || c == '_' || c == '[' || c == ']'

/-- Python `str.strip()` on a character list (ASCII whitespace). -/
def pyStrip (l : List Char) : List Char :=
  ((l.dropWhile pyIsSpace).reverse.dropWhile pyIsSpace).reverse

/-- Python `str.rstrip(c)` for a single character `c`: drop all trailing
copies of `c`. -/
def pyRstripChar (c : Char) (l : List Char) : List Char :=
  (l.reverse.dropWhile (fun d => d == c)).reverse

/-- Python `str.split('\n')`.  `"".split('\n') == [""]` and a string without
newline splits into the one-element list holding it. -/
def pySplitNl (l : List Char) : List (List Char) :=
  match l with
  | [] => [[]]
  | c :: t =>
    let r := pySplitNl t
    if c == '\n' then [] :: r
    else
      match r with
      | [] => [[c]]
      | h :: t2 => (c :: h) :: t2

/-- Does the line contain a colon (Python `':' in line`)? -/
def hasColon (l : List Char) : Bool :=
  l.contains ':'

/-- Python `line.startswith(('+', '-'))`. -/
def startsPM (l : List Char) : Bool :=
  match l with
  | [] => false
  | c :: _ => c == '+' || c == '-'

/-- Numeric value of a digit run (most significant first). -/
def digitsToNat (l : List Char) : Nat :=
  l.foldl (fun a c => a * 10 + (c.toNat - 48)) 0

/-- Models `re.sub(r'\\.*$', '', content, flags=re.MULTILINE)` from
`_parse_lp_file` (src/quick_fix_converter_2.py line 56): on every line, the
text from the first backslash to the end of the line is deleted (the newline
itself is kept, since `$` matches just before it).  The Boolean state is
"currently inside a comment being deleted". -/
def removeCommentsGo : Bool → List Char → List Char
  | _, [] => []
  | true, c :: t => if c == '\n' then '\n' :: removeCommentsGo false t else removeCommentsGo true t
  | false, c :: t => if c == '\\' then removeCommentsGo true t else c :: removeCommentsGo false t

/-- Comment removal pass of `_parse_lp_file`. -/
def remove_comments (l : List Char) : List Char :=
  removeCommentsGo false l

/-- Models `re.sub(r'\s+', ' ', content)` from `_parse_lp_file`
(src/quick_fix_converter_2.py line 57): every maximal run of whitespace
(newlines included) becomes a single space.  The Boolean state is "the
previous character belonged to a whitespace run". -/
def collapseGo : Bool → List Char → List Char
  | _, [] => []
  | prevWs, c :: t =>
    if pyIsSpace c then
      if prevWs then collapseGo true t else ' ' :: collapseGo true t
    else c :: collapseGo false t

/-- Whitespace normalization pass of `_parse_lp_file`. -/
def collapse_whitespace (l : List Char) : List Char :=
  collapseGo false l

/-- Case-insensitive literal match: `pat` (given in lowercase) is a prefix of
`l` up to ASCII case.  Models `re.IGNORECASE` literal alternatives. -/
def matchesCI : List Char → List Char → Bool
  | [], _ => true
  | _ :: _, [] => false
  | p :: ps, c :: cs => (c.toLower == p) && matchesCI ps cs

/-- First alternative (in the regex's alternation order) that matches at the
head of `l`; returns its length. -/
def matchAltCI (alts : List (List Char)) (l : List Char) : Option Nat :=
  match alts with
  | [] => none
  | a :: rest => if matchesCI a l then some a.length else matchAltCI rest l

/-- Leftmost occurrence of any alternative (`re.search` on an alternation of
literals): returns the remainder of `l` just after the matched keyword.
Because the section patterns continue with `(.*?)(?=...|\Z)`, which can never
fail (`\Z` always eventually matches), the first keyword occurrence is always
the one used, so no backtracking across keyword occurrences is needed. -/
def findKwCI (alts : List (List Char)) : List Char → Option (List Char)
  | [] => none
  | c :: t =>
    match matchAltCI alts (c :: t) with
    | some n => some (List.drop n (c :: t))
    | none => findKwCI alts t

/-- Non-greedy capture `(.*?)(?=alt1|alt2|...|\Z)` (with `re.DOTALL`): the
shortest prefix of `l` such that at its end one of the lookahead literals
matches, or the end of the string is reached. -/
def captureCI (las : List (List Char)) : List Char → List Char
  | [] => []
  | c :: t =>
    if (las.any fun a => matchesCI a (c :: t)) then []
    else c :: captureCI las t

/-- Result of `_split_sections` (src/quick_fix_converter_2.py lines 90-108):
each section is the stripped capture group, or absent when its regex does not
match.  `" ".join(g for g in match.groups()[1:] if g)` reduces to the single
second group for all three patterns, so each value is just the stripped
capture. -/
structure Sections where
  objective : Option (List Char)
  constraints : Option (List Char)
  bounds : Option (List Char)
deriving DecidableEq

/-- Keyword alternation of the objective pattern
`(minimize|maximize|min|max|obj)`. -/
def objKws : List (List Char) :=
  [ "minimize".data, "maximize".data, "min".data, "max".data, "obj".data]

/-- Lookahead alternation `(?=subject to|s\.t\.|constraints|bounds|end|\Z)`
of the objective pattern. -/
def objLas : List (List Char) :=
  [ "subject to".data, "s.t.".data, "constraints".data, "bounds".data, "end".data]

/-- Keyword alternation `(subject to|s\.t\.|constraints)`. -/
def consKws : List (List Char) :=
  [ "subject to".data, "s.t.".data, "constraints".data]

/-- Lookahead alternation `(?=bounds|end|\Z)` of the constraints pattern. -/
def consLas : List (List Char) :=
  [ "bounds".data, "end".data ]

/-- Models `_split_sections` (src/quick_fix_converter_2.py lines 90-108): the
three `re.search` calls with `re.IGNORECASE | re.DOTALL` on the full content,
each independent of the others. -/
def split_sections (content : List Char) : Sections :=
  { objective :=
      (findKwCI objKws content).map fun rest => pyStrip (captureCI objLas rest)
  , constraints :=
      (findKwCI consKws content).map fun rest => pyStrip (captureCI consLas rest)
  , bounds :=
      (findKwCI [ "bounds".data ] content).map fun rest =>
        pyStrip (captureCI [ "end".data ] rest) }

/-- Models `re.sub(r'\[([0-9]+)\]', r'_\1', var)` from `_normalize_var_name`
(src/quick_fix_converter_2.py lines 25-28) as a left-to-right automaton.
State `none`: plain copying.  State `some ds`: an opening bracket has been
read and `ds` holds the digits seen since then, most recent first.  A
bracketed nonempty digit run closed by a bracket is replaced by an underscore
followed by the digits; on any mismatch the buffered characters are emitted
literally and scanning resumes at the offending character (digits cannot
start a new match, so only an opening bracket needs to be reconsidered, which
matches the non-overlapping left-to-right behaviour of `re.sub`). -/
def normGo : Option (List Char) → List Char → List Char
  | none, [] => []
  | none, c :: t => if c == '[' then normGo (some []) t else c :: normGo none t
  | some ds, [] => '[' :: ds.reverse
  | some ds, c :: t =>
    if c.isDigit then normGo (some (c :: ds)) t
    else if c == ']' && !ds.isEmpty then '_' :: ds.reverse ++ normGo none t
    else if c == '[' then '[' :: ds.reverse ++ normGo (some []) t
    else '[' :: ds.reverse ++ c :: normGo none t

/-- Models `_normalize_var_name` (src/quick_fix_converter_2.py lines 25-28). -/
def normalize_var_name (l : List Char) : List Char :=
  normGo none l

/-- Models CPython `float(s)` on its decimal grammar:
optional surrounding whitespace, optional sign, a mantissa that is either
`digits [ '.' [digits] ]` or `'.' digits`, and an optional exponent
`('e'|'E') [sign] digits`.  Returns `none` exactly when `float` raises
`ValueError`.  The value is the exact rational denoted by the literal (the
infinity/NaN spellings and digit-group underscores are outside the inputs
this code base can produce and are not modelled). -/
def pyFloatQ (l : List Char) : Option ℚ :=
  let t := pyStrip l
  let sr : ℚ × List Char :=
    match t with
    | '+' :: r => (1, r)
    | '-' :: r => (-1, r)
    | _ => (1, t)
  let d1 := sr.2.takeWhile Char.isDigit
  let r1 := sr.2.dropWhile Char.isDigit
  let fr : List Char × List Char :=
    match r1 with
    | '.' :: x => (x.takeWhile Char.isDigit, x.dropWhile Char.isDigit)
    | _ => ([], r1)
  let d2 := fr.1
  let r3 := fr.2
  if d1.isEmpty && d2.isEmpty then none
  else
    let mant : ℚ := (digitsToNat d1 : ℚ) + (digitsToNat d2 : ℚ) / (10 : ℚ) ^ d2.length
    match r3 with
    | [] => some (sr.1 * mant)
    | e :: r4 =>
      if e == 'e' || e == 'E' then
        let es : ℚ × List Char :=
          match r4 with
          | '+' :: r => (1, r)
          | '-' :: r => (-1, r)
          | _ => (1, r4)
        let ed := es.2.takeWhile Char.isDigit
        let r6 := es.2.dropWhile Char.isDigit
        if ed.isEmpty || !r6.isEmpty then none
        else some (sr.1 * mant * (10 : ℚ) ^ (es.1.num * (digitsToNat ed : ℤ)))
      else none

/-- Models `_parse_coefficient` (src/quick_fix_converter_2.py lines 277-289):
remove every space, strip, then `""`/`"+"` map to `1.0`, `"-"` to `-1.0`, and
anything else is `float`-parsed with fallback `1.0` on `ValueError`. -/
def parse_coefficient (cs : List Char) : ℚ :=
  let t := pyStrip (cs.filter fun c => c ≠ ' ')
  if t.isEmpty || t == ['+'] then 1
  else if t == ['-'] then -1
  else (pyFloatQ t).getD 1

/-- Insertion-ordered accumulation `d[k] = d.get(k, 0) + v` on a Python dict
modelled as an association list: an existing key keeps its position, a new
key is appended. -/
def updateAdd (acc : List (String × ℚ)) (k : String) (v : ℚ) : List (String × ℚ) :=
  match acc with
  | [] => [(k, v)]
  | (a, b) :: t => if a = k then (a, b + v) :: t else (a, b) :: updateAdd t k v

/-- Exact (case-sensitive) literal match at the head of a list. -/
def beginsWith : List Char → List Char → Bool
  | [], _ => true
  | _ :: _, [] => false
  | p :: ps, c :: cs => p == c && beginsWith ps cs

/-- Optional sign `[+-]?`: consume a leading `+` or `-` if present. -/
def takeSign (l : List Char) : List Char × List Char :=
  match l with
  | c :: t => if c == '+' || c == '-' then ([c], t) else ([], l)
  | [] => ([], [])

/-- The gap `[ ]*\*?[ ]*` of the objective pattern (literal spaces only):
returns the remainder.  The consumed characters are not captured.  No
backtracking is needed: the following variable token can start neither with
a space nor with `*`, so shortening any of these greedy pieces can never
turn a failure into a success. -/
def spaceStarGap (l : List Char) : List Char :=
  let a := l.dropWhile fun c => c == ' '
  let b := match a with | '*' :: t => t | _ => a
  b.dropWhile fun c => c == ' '

/-- The gap `\s*\*?\s*` of the constraint-expression pattern (full
whitespace class); same no-backtracking argument as `spaceStarGap`. -/
def wsStarGap (l : List Char) : List Char :=
  let a := l.dropWhile pyIsSpace
  let b := match a with | '*' :: t => t | _ => a
  b.dropWhile pyIsSpace

/-- Variable token `([a-zA-Z_][a-zA-Z0-9_\[\]]*)`: greedy and deterministic
(maximal munch) since nothing follows it in either pattern. -/
def varTake (l : List Char) : Option (List Char × List Char) :=
  match l with
  | c :: t =>
    if varStart c then some (c :: t.takeWhile varCont, t.dropWhile varCont) else none
  | [] => none

/-- Optional exponent `(?:[eE][+-]?\d+)?`: all-or-nothing group; it matches
only when the `e`/`E` is followed by at least one digit (after an optional
sign), otherwise the group is empty and nothing is consumed. -/
def expTake (l : List Char) : List Char × List Char :=
  match l with
  | c :: t =>
    if c == 'e' || c == 'E' then
      match t with
      | s :: t2 =>
        if s == '+' || s == '-' then
          let ds := t2.takeWhile Char.isDigit
          if ds.isEmpty then ([], l) else (c :: s :: ds, t2.dropWhile Char.isDigit)
        else
          let ds := t.takeWhile Char.isDigit
          if ds.isEmpty then ([], l) else (c :: ds, t.dropWhile Char.isDigit)
      | [] => ([], l)
    else ([], l)
  | [] => ([], [])

/-- One attempted match of the objective-term pattern
`([+-]?\s*\d+(?:\.\d+)?(?:[eE][+-]?\d+)?)[ ]*\*?[ ]*([a-zA-Z_][a-zA-Z0-9_\[\]]*)`
(src/quick_fix_converter_2.py line 161) at the head of `l`.  Returns
(coefficient group, variable group, remainder after the match).
Backtracking analysis: the digit run, fraction and exponent are greedy; the
variable token cannot start with a digit, a dot, a space or `*`, so the only
productive backtrack is dropping a nonempty exponent group (then the
variable token starts at the `e`/`E` itself, e.g. `"1e2"` with no following
variable matches as coefficient `1`, variable `e2`).  Dropping the fraction
or shortening the digit run can never help, since the variable token cannot
start at a `.` or a digit. -/
def objMatchAt (l : List Char) : Option (List Char × List Char × List Char) :=
  let sg := takeSign l
  let ws1 := sg.2.takeWhile pyIsSpace
  let r2 := sg.2.dropWhile pyIsSpace
  let d1 := r2.takeWhile Char.isDigit
  let r3 := r2.dropWhile Char.isDigit
  if d1.isEmpty then none
  else
    let fracr : List Char × List Char :=
      match r3 with
      | '.' :: x =>
        if (x.takeWhile Char.isDigit).isEmpty then ([], r3)
        else ('.' :: x.takeWhile Char.isDigit, x.dropWhile Char.isDigit)
      | _ => ([], r3)
    let er := expTake fracr.2
    match varTake (spaceStarGap er.2) with
    | some vr => some (sg.1 ++ ws1 ++ d1 ++ fracr.1 ++ er.1, vr.1, vr.2)
    | none =>
      if er.1.isEmpty then none
      else
        match varTake fracr.2 with
        | some vr => some (sg.1 ++ ws1 ++ d1 ++ fracr.1, vr.1, vr.2)
        | none => none

/-- The `re.finditer` loop of `_parse_objective`
(src/quick_fix_converter_2.py lines 156-174): scan left to right, at each
position attempt `objMatchAt`; on success accumulate
`objective_terms[var] = objective_terms.get(var, 0) + coeff` with the
variable stripped and normalized, and resume after the match; on failure
advance one character.  Fuel decreases every step; a successful match
consumes at least the nonempty variable token, so `length + 1` fuel always
suffices. -/
def objScanGo : Nat → List Char → List (String × ℚ) → List (String × ℚ)
  | 0, _, acc => acc
  | fuel + 1, l, acc =>
    match objMatchAt l with
    | some m =>
      objScanGo fuel m.2.2
        (updateAdd acc (String.mk (normalize_var_name (pyStrip m.2.1))) (parse_coefficient m.1))
    | none =>
      match l with
      | [] => acc
      | _ :: t => objScanGo fuel t acc

/-- Models `_parse_objective` (src/quick_fix_converter_2.py lines 156-174). -/
def parse_objective (l : List Char) : List (String × ℚ) :=
  objScanGo (l.length + 1) l []

/-- One attempted match of the constraint-expression pattern
`([+-]?\s*\d*\.?\d*)\s*\*?\s*([a-zA-Z_][a-zA-Z0-9_\[\]]*)`
(src/quick_fix_converter_2.py line 265) at the head of `l`.  Every numeric
piece is optional and there is no exponent group.  Deterministic maximal
munch is faithful: the variable token cannot start with a digit, dot, space
or `*`, so no shortening of the greedy pieces can turn failure into
success. -/
def linMatchAt (l : List Char) : Option (List Char × List Char × List Char) :=
  let sg := takeSign l
  let ws1 := sg.2.takeWhile pyIsSpace
  let r2 := sg.2.dropWhile pyIsSpace
  let d1 := r2.takeWhile Char.isDigit
  let r3 := r2.dropWhile Char.isDigit
  let dotr : List Char × List Char :=
    match r3 with
    | '.' :: x => (['.'], x)
    | _ => ([], r3)
  let d2 := dotr.2.takeWhile Char.isDigit
  let r5 := dotr.2.dropWhile Char.isDigit
  match varTake (wsStarGap r5) with
  | some vr => some (sg.1 ++ ws1 ++ d1 ++ dotr.1 ++ d2, vr.1, vr.2)
  | none => none

/-- The `re.finditer` loop of `_parse_linear_expression`
(src/quick_fix_converter_2.py lines 260-275).  The guard `if var.strip():`
of the source is always true because the variable group is nonempty and
contains no whitespace. -/
def linScanGo : Nat → List Char → List (String × ℚ) → List (String × ℚ)
  | 0, _, acc => acc
  | fuel + 1, l, acc =>
    match linMatchAt l with
    | some m =>
      linScanGo fuel m.2.2
        (updateAdd acc (String.mk (normalize_var_name (pyStrip m.2.1))) (parse_coefficient m.1))
    | none =>
      match l with
      | [] => acc
      | _ :: t => linScanGo fuel t acc

/-- Models `_parse_linear_expression` (src/quick_fix_converter_2.py
lines 260-275). -/
def parse_linear_expression (l : List Char) : List (String × ℚ) :=
  linScanGo (l.length + 1) l []

/-- Constraint record built by `_parse_single_constraint_fixed`
(src/quick_fix_converter_2.py lines 214-258). -/
structure Constraint where
  name : String
  terms : List (String × ℚ)
  sense : String
  rhs : ℚ
deriving DecidableEq

/-- Position of the first occurrence of the literal `op` in the scanned list
that is usable by `re.search(r'(.+?)\s*OP\s*(.+)', expr)`: the occurrence
must have at least one character before it (`.+?`, hence index at least 1)
and at least one character after it (`.+`).  An occurrence failing either
condition is skipped and the engine moves to the next one, which this
left-to-right scan reproduces.  `i` is the index of the head of `t` within
the original expression. -/
def findOpIdx (op : List Char) : Nat → List Char → Option Nat
  | _, [] => none
  | i, c :: t =>
    if decide (1 ≤ i) && beginsWith op (c :: t) && decide (op.length < (c :: t).length) then some i
    else findOpIdx op (i + 1) t

/-- Models `_parse_single_constraint_fixed` (src/quick_fix_converter_2.py
lines 214-258).  The three sense patterns `(.+?)\s*<=\s*(.+)`,
`(.+?)\s*>=\s*(.+)`, `(.+?)\s*=\s*(.+)` are tried in that order; for the
first one that matches, group 1 stripped equals everything before the
operator occurrence stripped (the `\s*` between `.+?` and the operator only
moves whitespace between the groups, which stripping erases), and group 2
stripped equals everything after the operator stripped (greedy `\s*` plus
`.+`, with the engine handing one whitespace character to `.+` when nothing
else remains — again erased by the `strip()` the source applies to both
groups).  The right-hand side falls back to `0.0` when `float` fails.  The
reachable expressions contain no newline (they are built from stripped
`split('\n')` fragments joined by spaces), so the `.`-does-not-match-newline
restriction of the patterns needs no modelling.  The source wraps the body
in `try/except` returning `None`; the body cannot raise (the only fallible
call, `float`, sits inside its own handler), so the embedding always
returns `some`, and the `Option` mirrors the caller's
`if constraint_dict:` guard. -/
def parse_single_constraint_fixed (name expr : List Char) : Option Constraint :=
  let found : Option (String × Nat × Nat) :=
    match findOpIdx ['<', '='] 0 expr with
    | some k => some ( "<=", k, 2)
    | none =>
      match findOpIdx ['>', '='] 0 expr with
      | some k => some ( ">=", k, 2)
      | none =>
        match findOpIdx ['='] 0 expr with
        | some k => some ( "=", k, 1)
        | none => none
  match found with
  | some skl =>
    let lhs := pyStrip (expr.take skl.2.1)
    let rhsStr := pyStrip (expr.drop (skl.2.1 + skl.2.2))
    some
      { name := String.mk name
      , terms := parse_linear_expression lhs
      , sense := skl.1
      , rhs := (pyFloatQ rhsStr).getD 0 }
  | none =>
    some
      { name := String.mk name
      , terms := parse_linear_expression expr
      , sense := "="
      , rhs := 0 }

/-- Loop state of `_parse_constraints_fixed`: the buffered expression
(`current_constraint`), the pending constraint name, and the constraints
accumulated so far. -/
structure PcfState where
  cur : List Char
  name : List Char
  acc : List Constraint
deriving DecidableEq

/-- One iteration of the `for line in lines` loop of
`_parse_constraints_fixed` (src/quick_fix_converter_2.py lines 185-204):
strip the line; skip it when empty; when it contains a colon and does not
start with `+`/`-`, flush the previous buffered constraint (appended only
when its parse succeeds) and start a new one from the `split(':', 1)`
parts; otherwise append the line to the buffer with a space. -/
def pcfStep (s : PcfState) (rawLine : List Char) : PcfState :=
  let line := pyStrip rawLine
  if line.isEmpty then s
  else if hasColon line && !startsPM line then
    let acc' :=
      if !s.cur.isEmpty && !s.name.isEmpty then
        s.acc ++ (parse_single_constraint_fixed s.name s.cur).toList
      else s.acc
    let namePart := line.takeWhile fun c => c ≠ ':'
    let exprPart := (line.dropWhile fun c => c ≠ ':').tail
    { cur := pyStrip exprPart, name := pyStrip namePart, acc := acc' }
  else { s with cur := s.cur ++ ' ' :: line }

/-- Models `_parse_constraints_fixed` (src/quick_fix_converter_2.py
lines 177-212): split the stripped section text on newlines, run the
buffering loop, then flush the final buffered constraint under the same
`if current_constraint and constraint_name` guard. -/
def parse_constraints_fixed (text : List Char) : List Constraint :=
  let lines := pySplitNl (pyStrip text)
  let fin := lines.foldl pcfStep { cur := [], name := [], acc := [] }
  if !fin.cur.isEmpty && !fin.name.isEmpty then
    fin.acc ++ (parse_single_constraint_fixed fin.name fin.cur).toList
  else fin.acc

/-- Loop state of the block collector `constraint_blocks`. -/
structure CbState where
  cur : List Char
  name : List Char
  blocks : List (List Char × List Char)
deriving DecidableEq

/-- Block-collecting analogue of `pcfStep`: identical control flow, but the
flush records the raw (name, buffered expression) pair instead of parsing
it. -/
def cbStep (s : CbState) (rawLine : List Char) : CbState :=
  let line := pyStrip rawLine
  if line.isEmpty then s
  else if hasColon line && !startsPM line then
    let blocks' :=
      if !s.cur.isEmpty && !s.name.isEmpty then s.blocks ++ [(s.name, s.cur)]
      else s.blocks
    let namePart := line.takeWhile fun c => c ≠ ':'
    let exprPart := (line.dropWhile fun c => c ≠ ':').tail
    { cur := pyStrip exprPart, name := pyStrip namePart, blocks := blocks' }
  else { s with cur := s.cur ++ ' ' :: line }

/-- The (name, buffered expression) blocks that `_parse_constraints_fixed`
finalizes, in order: a specification-side view of the same loop used to
state that failed parses are dropped while the remaining blocks are still
processed. -/
def constraint_blocks (text : List Char) : List (List Char × List Char) :=
  let lines := pySplitNl (pyStrip text)
  let fin := lines.foldl cbStep { cur := [], name := [], blocks := [] }
  if !fin.cur.isEmpty && !fin.name.isEmpty then fin.blocks ++ [(fin.name, fin.cur)]
  else fin.blocks

/-- In-memory result of `_parse_lp_file`.  The `bounds` field of the source
is omitted: `_parse_bounds` (src/quick_fix_converter_2.py lines 291-293)
always returns the empty dict and `_write_vqe_format` never reads it.  The
`variables` set is likewise derived state (the keys of the objective dict
and of the constraint term dicts) that no modelled behaviour reads. -/
structure ParsedProgram where
  objective_terms : List (String × ℚ)
  constraints : List Constraint
deriving DecidableEq

/-- Models `_parse_lp_file` (src/quick_fix_converter_2.py lines 50-70) with
the file contents passed as a string: remove backslash comments, collapse
whitespace runs, split into sections, and parse the sections that are
present (missing sections leave the initial empty values). -/
def parse_lp_text (s : String) : ParsedProgram :=
  let content := collapse_whitespace (remove_comments s.data)
  let secs := split_sections content
  { objective_terms :=
      match secs.objective with
      | some t => parse_objective t
      | none => []
  , constraints :=
      match secs.constraints with
      | some t => parse_constraints_fixed t
      | none => [] }

/-- Smallest exponent `k` (starting from the given one) such that
`a * 10^k` is an integer, searched with fuel; used to print the exact
decimal expansion of a parsed float. -/
def decExpSearch : Nat → Nat → ℚ → Option Nat
  | 0, _, _ => none
  | fuel + 1, k, a => if (a * (10 : ℚ) ^ k).den = 1 then some k else decExpSearch fuel (k + 1) a

/-- Left-pad a digit string with zeros to width `k`. -/
def padZeros (k : Nat) (s : List Char) : List Char :=
  List.replicate (k - s.length) '0' ++ s

/-- Positive-value part of `pyFloatRepr`. -/
def pyFloatPos (a : ℚ) : String :=
  if a.den = 1 then toString a.num.toNat ++ ".0"
  else
    match decExpSearch 64 1 a with
    | some k =>
      let n := (a * (10 : ℚ) ^ k).num.toNat
      toString (n / 10 ^ k) ++ "." ++ String.mk (padZeros k (toString (n % 10 ^ k)).data)
    | none => toString a.num ++ "/" ++ toString a.den

/-- Models Python `repr`/`str` of a float (as used by the source's f-strings
`f"{coeff} {var}"` and `f"... {sense} {rhs}"`) for values that are exact
short decimals in the positional range `1e-4 <= |x| < 1e16`: Python prints
the shortest decimal that round-trips, which for such values is the exact
decimal expansion, with integers printed with a trailing `.0` (e.g. `2.0`,
`-2.5`, `0.0015`).  Values requiring scientific notation or rounding do not
occur in any instance verified below; the `none` fallback of the search is
unreachable for values parsed from decimal literals. -/
def pyFloatRepr (q : ℚ) : String :=
  if q < 0 then "-" ++ pyFloatPos (-q) else pyFloatPos q

/-- The term-list builder of `_write_vqe_format`, duplicated verbatim in the
source for the objective (src/quick_fix_converter_2.py lines 303-315) and
for each constraint (lines 331-343); embedded once.  Zero coefficients are
skipped; the first emitted term computes a sign prefix but does not replace
the coefficient by its absolute value (only later terms do), reproducing the
source faithfully. -/
def writeTermsParts (terms : List (String × ℚ)) : List String :=
  terms.foldl
    (fun parts tv =>
      if tv.2 ≠ 0 then
        if parts.isEmpty then
          let sign := if (0 : ℚ) ≤ tv.2 then "" else "-"
          if tv.2 = 1 then parts ++ [sign ++ tv.1]
          else parts ++ [sign ++ pyFloatRepr tv.2 ++ " " ++ tv.1]
        else
          let sign := if (0 : ℚ) ≤ tv.2 then " + " else " - "
          let c := |tv.2|
          if c = 1 then parts ++ [sign ++ tv.1]
          else parts ++ [sign ++ pyFloatRepr c ++ " " ++ tv.1]
      else parts)
    []

/-- `"".join(terms)` over the built parts. -/
def formatTermList (terms : List (String × ℚ)) : String :=
  String.join (writeTermsParts terms)

/-- Models `_write_vqe_format` (src/quick_fix_converter_2.py lines 295-351)
with the written file returned as a string: objective block (only when the
objective dict is nonempty), single-line constraints block (only when the
constraints list is nonempty), and the `end` trailer.  No bounds section is
ever written. -/
def write_vqe_format (p : ParsedProgram) : String :=
  (if p.objective_terms.isEmpty then ""
   else "minimize\nobj: " ++ formatTermList p.objective_terms ++ "\n\n")
  ++
  (if p.constraints.isEmpty then ""
   else
     "subject to\n"
     ++ String.join
          (p.constraints.map fun c =>
            c.name ++ ": " ++ formatTermList c.terms ++ " " ++ c.sense ++ " "
              ++ pyFloatRepr c.rhs ++ "\n")
     ++ "\n")
  ++ "end\n"

/-- Models `LPFormatConverter.convert_file`
(src/quick_fix_converter_2.py lines 30-48) on a fresh converter, with file
reading and writing abstracted to strings: parse the input text, then write
the VQE-compatible format. -/
def convert_text (s : String) : String :=
  write_vqe_format (parse_lp_text s)

/-- Full-suffix match of `\d*\.?\d+` (with backtracking): nonempty, only
digits and at most one dot, and the last character is a digit (so the
required trailing `\d+` is satisfiable). -/
def mantissaEndOk (m : List Char) : Bool :=
  !m.isEmpty
    && m.all (fun c => c.isDigit || c == '.')
    && (m.countP (fun c => c == '.')) ≤ 1
    && (match m.getLast? with | some c => c.isDigit | none => false)

/-- Full-suffix match of `\d*\.?\d+(e[-+]?\d+)?` for the end-anchored
number of the repair regex (lowercase `e` only; the pattern is compiled
without `re.IGNORECASE`).  The mantissa cannot contain `e`, so splitting at
the first `e` is faithful. -/
def numTailOk (t : List Char) : Bool :=
  let m := t.takeWhile fun c => c ≠ 'e'
  let r := t.dropWhile fun c => c ≠ 'e'
  match r with
  | [] => mantissaEndOk m
  | _ :: r1 =>
    let r2 := match r1 with | c :: t2 => if c == '-' || c == '+' then t2 else r1 | [] => r1
    mantissaEndOk m && !r2.isEmpty && r2.all Char.isDigit

/-- After one of the operators: `\s*[-+]?` then the end-anchored number. -/
def opTailOk (t : List Char) : Bool :=
  let t1 := t.dropWhile pyIsSpace
  let t2 := match t1 with | c :: t2 => if c == '-' || c == '+' then t2 else t1 | [] => t1
  numTailOk t2

/-- Models `re.search(r'(<=|>=|=)\s*[-+]?\d*\.?\d+(e[-+]?\d+)?$', line)`
viewed as a Boolean (the source only tests truthiness): does the line end in
a relational operator followed by a number?  The `$` anchor is end of
string on these lines, which carry no trailing newline (they were
stripped). -/
def endsOpNum : List Char → Bool
  | [] => false
  | c :: t =>
    (if beginsWith ['<', '='] (c :: t) || beginsWith ['>', '='] (c :: t) then
      opTailOk t.tail
    else if c == '=' then opTailOk t
    else false)
    || endsOpNum t

/-- Line preprocessing `lines[i].rstrip('\n').strip()` of the repair loop
(src/portfolio_generator.py line 410 and 416). -/
def stripLine (l : List Char) : List Char :=
  pyStrip (pyRstripChar '\n' l)

/-- Python `merged_line.replace(',', '')`. -/
def removeCommas (l : List Char) : List Char :=
  l.filter fun c => c ≠ ','

/-- Python `line.rstrip(',')`. -/
def rstripCommas (l : List Char) : List Char :=
  pyRstripChar ',' l

/-- The inner `while i < len(lines)` merge loop of the LP post-processing
pass in `create_benchmark_suite` (src/portfolio_generator.py lines
414-425), phrased on the list of remaining raw lines: stop before a blank
line or a line that looks like a new constraint/section start (contains a
colon and does not start with `+`/`-`); otherwise append the stripped line
to the buffer with a space and stop after it if the buffer now ends in
operator+number.  Returns the final buffer and the remaining lines. -/
def mergeCont (buf : List Char) : List (List Char) → List Char × List (List Char)
  | [] => (buf, [])
  | nl :: ls =>
    if (stripLine nl).isEmpty || (hasColon (stripLine nl) && !startsPM (stripLine nl)) then
      (buf, nl :: ls)
    else if endsOpNum (buf ++ ' ' :: stripLine nl) then (buf ++ ' ' :: stripLine nl, ls)
    else mergeCont (buf ++ ' ' :: stripLine nl) ls

/-- The outer `while i < len(lines)` loop of the LP post-processing pass
(src/portfolio_generator.py lines 406-433), phrased on the list of
remaining raw lines with explicit fuel (the loop advances the index by at
least one per iteration, so `length + 1` fuel always suffices): a stripped
line containing a colon that does not already end in operator+number starts
a multi-line constraint, whose merged buffer has every comma removed; any
other line is emitted with trailing commas removed. -/
def fixGo : Nat → List (List Char) → List (List Char)
  | 0, _ => []
  | _ + 1, [] => []
  | fuel + 1, l :: ls =>
    if hasColon (stripLine l) && !endsOpNum (stripLine l) then
      removeCommas (mergeCont (stripLine l) ls).1 :: fixGo fuel (mergeCont (stripLine l) ls).2
    else rstripCommas (stripLine l) :: fixGo fuel ls

/-- The LP post-processing pass of `create_benchmark_suite`
(src/portfolio_generator.py lines 403-436), file I/O abstracted away: the
`fixed_lines` list computed from the `readlines()` list. -/
def fix_lp_lines (lines : List (List Char)) : List (List Char) :=
  fixGo (lines.length + 1) lines

/-- Input LP text exercising a coefficient-1 objective term, used for the
round-trip analysis. -/
def c1_input : String :=
  "minimize\nobj: 1 x\nsubject to\nc0: x = 1\nend\n"

/-- First conversion of `c1_input`: the objective term with coefficient 1 is
written as the bare variable `x`. -/
def c1_output1 : String :=
  "minimize\nobj: x\n\nsubject to\nc0: x = 1.0\n\nend\n"

/-- Second conversion: the objective parser's numeric token requires a
digit, so `obj: x` yields no objective terms and the objective block is
dropped. -/
def c1_output2 : String :=
  "subject to\nc0: x = 1.0\n\nend\n"

/-- The file the converter actually writes for the end-to-end example
input `c2_input`; re-converting this particular output is a no-op. -/
def c1_fixed_point_file : String :=
  "minimize\nobj: 2.0 w_0 + 3.0 w_1\n\nsubject to\nc0: w_0 + w_1 = 1.0\n\nend\n"

/-- The end-to-end scenario input of the specification. -/
def c2_input : String :=
  "minimize\nobj: 2 w[0] + 3 w[1]\nsubject to\nc0: w[0]\n    + w[1] = 1\nend\n"

/-- The output text the specification claims for `c2_input`. -/
def c2_claimed_output : String :=
  "minimize\nobj: 2 w_0 + 3 w_1\n\nsubject to\nc0: w_0 + w_1 = 1\n\nend\n"

/-- The output the code actually writes for `c2_input`: the f-strings print
the Python floats `2.0`, `3.0` and `1.0` with their trailing `.0`. -/
def c2_actual_output : String :=
  "minimize\nobj: 2.0 w_0 + 3.0 w_1\n\nsubject to\nc0: w_0 + w_1 = 1.0\n\nend\n"

/-- A bare variable expression on which the two term extractors differ. -/
def c4_expr_bare : String := "x"

/-- An exponent-notation expression on which the two term extractors
differ. -/
def c4_expr_exp : String := "1.5e-3 x_1"

/-- The exponent-correctness objective text of the specification. -/
def c5_objective_text : String := "1.5e-3 x_1"

/-- The bare-variable objective text of the specification. -/
def c6_objective_text : String := "x_1 + 2 x_2"

/-- Input whose objective has a single negative leading coefficient. -/
def c7_input : String :=
  "minimize\nobj: -2.5 w[0]\nsubject to\nc0: w[0] = 1\nend\n"

/-- What the code writes for `c7_input`: the first term's sign prefix is
prepended to the still-negative coefficient, producing a double minus. -/
def c7_output : String :=
  "minimize\nobj: --2.5 w_0\n\nsubject to\nc0: w_0 = 1.0\n\nend\n"

/-- C1 counterexample: re-running the converter on its own output is not a
no-op.  Converting `c1_input` yields `c1_output1`, whose objective block
holds the bare term `x`; converting that output again drops the objective
block entirely (the objective term pattern requires an explicit digit), so
the result differs from its input byte-wise. -/
theorem c1_roundtrip_not_noop :
    convert_text c1_input = c1_output1
      ∧ convert_text c1_output1 = c1_output2
      ∧ c1_output2 ≠ c1_output1 := by
  refine ⟨by with_unfolding_all decide, by with_unfolding_all decide, by with_unfolding_all decide⟩

/-- C1 amended: re-running the converter on its own output is not a no-op
for every output, but it is for particular ones: the file actually written
for the end-to-end example input `c2_input` (namely `c1_fixed_point_file`)
re-converts to byte-identical content. -/
theorem c1_fixed_point_on_example_output :
    convert_text c2_input = c1_fixed_point_file
      ∧ convert_text (convert_text c2_input) = convert_text c2_input := by
  refine ⟨by with_unfolding_all decide, by with_unfolding_all decide⟩

/-- C2 counterexample: the written output differs from the text the claim
demands — the code prints the parsed floats as `2.0`, `3.0`, `1.0`, not as
`2`, `3`, `1`. -/
theorem c2_end_to_end_output_differs :
    convert_text c2_input ≠ c2_claimed_output := by
  with_unfolding_all decide

/-- C2 amended: on the end-to-end input, the parsed objective is exactly
`w_0 : 2.0, w_1 : 3.0`, there is exactly one constraint `c0` with terms
`w_0 : 1.0, w_1 : 1.0`, sense `=` and right-hand side `1.0`, and the
written file is the claimed text with every coefficient and right-hand side
rendered in Python float form (`2.0 w_0 + 3.0 w_1`, `= 1.0`). -/
theorem c2_end_to_end_amended :
    (parse_lp_text c2_input).objective_terms = [ ("w_0", (2 : ℚ)), ("w_1", 3)]
      ∧ (parse_lp_text c2_input).constraints
          = [{ name := "c0", terms := [ ("w_0", 1), ("w_1", 1)], sense := "=", rhs := 1 }]
      ∧ convert_text c2_input = c2_actual_output := by
  refine ⟨by with_unfolding_all decide, by with_unfolding_all decide, by with_unfolding_all decide⟩

/-- C4 counterexample: the constraint left-hand-side extractor and the
objective parser disagree already on the one-character expression `x`. -/
theorem c4_lhs_objective_differ :
    parse_linear_expression c4_expr_bare.data ≠ parse_objective c4_expr_bare.data := by
  with_unfolding_all decide

/-- C4 amended: the two term extractors are different algorithms.  The
constraint extractor's magnitude is optional, so a bare variable gets
coefficient 1.0 while the objective parser (mandatory digit) drops it; the
objective parser consumes exponents atomically while the constraint
extractor (no exponent group) splits `1.5e-3 x_1` into a spurious `e` term
and coefficient `-3` for `x_1`. -/
theorem c4_lhs_objective_divergence :
    parse_objective c4_expr_bare.data = []
      ∧ parse_linear_expression c4_expr_bare.data = [ ("x", (1 : ℚ))]
      ∧ parse_objective c4_expr_exp.data = [ ("x_1", (3 : ℚ)/2000)]
      ∧ parse_linear_expression c4_expr_exp.data = [ ("e", (3 : ℚ)/2), ("x_1", -3)] := by
  refine ⟨by with_unfolding_all decide, by with_unfolding_all decide, by with_unfolding_all decide, by with_unfolding_all decide⟩

/-- C5: the objective parser consumes the exponent atomically —
`"1.5e-3 x_1"` parses to the single term `x_1` with the exact coefficient
`0.0015 = 3/2000`, and no variable named `e` is created (the registered
variables are exactly the keys of the resulting term map). -/
theorem c5_exponent_atomic :
    parse_objective c5_objective_text.data = [ ("x_1", (3 : ℚ)/2000)]
      ∧ "e" ∉ (parse_objective c5_objective_text.data).map Prod.fst := by
  refine ⟨by with_unfolding_all decide, by with_unfolding_all decide⟩

/-- C6 counterexample: in the objective parser a variable token with no
preceding magnitude is not matched at all — `"x_1 + 2 x_2"` parses to the
single term `x_2 : 2.0` and no `x_1` key exists, contradicting the claimed
result `x_1 : 1.0, x_2 : 2.0`. -/
theorem c6_bare_variable_counterexample :
    parse_objective c6_objective_text.data = [ ("x_2", (2 : ℚ))]
      ∧ "x_1" ∉ (parse_objective c6_objective_text.data).map Prod.fst := by
  refine ⟨by with_unfolding_all decide, by with_unfolding_all decide⟩

/-- C6 amended: the objective pattern's numeric token requires an explicit
digit, so bare variables produce no objective term (they are dropped, not
defaulted to 1.0); the 1.0 default for an empty magnitude applies in the
constraint-expression extractor, whose magnitude is optional. -/
theorem c6_bare_variable_amended :
    parse_objective c6_objective_text.data = [ ("x_2", (2 : ℚ))]
      ∧ parse_linear_expression c6_objective_text.data = [ ("x_1", (1 : ℚ)), ("x_2", 2)] := by
  refine ⟨by with_unfolding_all decide, by with_unfolding_all decide⟩

/-- C7: evaluation at the failing input.  The writer computes a sign prefix
for the first term but does not replace its coefficient by the absolute
value, so a leading negative coefficient is printed twice-signed: the
objective `w_0 : -2.5` parsed from `c7_input` is written as `--2.5 w_0`
(the claim requires `-2.5 w_0`), and a first term with coefficient `-1`
prints as `--1.0 w_0` (the claim requires `-w_0`). -/
theorem c7_first_negative_term_double_sign :
    convert_text c7_input = c7_output
      ∧ formatTermList [ ("w_0", (-5 : ℚ)/2)] = "--2.5 w_0"
      ∧ formatTermList [ ("w_0", (-1 : ℚ))] = "--1.0 w_0" := by
  refine ⟨by with_unfolding_all decide, by with_unfolding_all decide, by with_unfolding_all decide⟩

/-- Membership is preserved from `dropWhile` back to the original list. -/
theorem mem_of_mem_dropWhileP {α : Type} (p : α → Bool) :
    ∀ (l : List α) (a : α), a ∈ l.dropWhile p → a ∈ l := by
  intro l
  induction l with
  | nil => intro a h; exact h
  | cons b t ih =>
    intro a h
    by_cases hb : p b
    · rw [List.dropWhile_cons_of_pos hb] at h
      exact List.mem_cons_of_mem _ (ih a h)
    · rw [List.dropWhile_cons_of_neg hb] at h
      exact h

/-- Membership is preserved from `pyStrip l` back to `l`. -/
theorem mem_of_mem_pyStrip {a : Char} {l : List Char} (h : a ∈ pyStrip l) : a ∈ l := by
  unfold pyStrip at h
  rw [List.mem_reverse] at h
  have h2 := mem_of_mem_dropWhileP pyIsSpace _ _ h
  rw [List.mem_reverse] at h2
  exact mem_of_mem_dropWhileP pyIsSpace _ _ h2

/-- Membership is preserved from the non-greedy capture back to the scanned
text. -/
theorem mem_of_mem_captureCI {a : Char} (las : List (List Char)) :
    ∀ (l : List Char), a ∈ captureCI las l → a ∈ l := by
  intro l
  induction l with
  | nil => intro h; exact h
  | cons c t ih =>
    intro h
    unfold captureCI at h
    by_cases hc : (las.any fun p => matchesCI p (c :: t)) = true
    · rw [if_pos hc] at h; cases h
    · rw [if_neg hc] at h
      rcases List.mem_cons.mp h with h1 | h2
      · exact h1 ▸ List.mem_cons_self c t
      · exact List.mem_cons_of_mem _ (ih h2)

/-- Membership is preserved from the remainder returned by `findKwCI` back
to the scanned text. -/
theorem mem_of_mem_findKwCI {a : Char} (alts : List (List Char)) :
    ∀ (l r : List Char), findKwCI alts l = some r → a ∈ r → a ∈ l := by
  intro l
  induction l with
  | nil => intro r h; exact absurd h (by unfold findKwCI; exact fun h => Option.noConfusion h)
  | cons c t ih =>
    intro r h ha
    unfold findKwCI at h
    cases hm : matchAltCI alts (c :: t) with
    | some n =>
      rw [hm] at h
      have : r = List.drop n (c :: t) := (Option.some.injEq _ _).mp h.symm
      exact List.drop_subset n (c :: t) (this ▸ ha)
    | none =>
      rw [hm] at h
      exact List.mem_cons_of_mem _ (ih r h ha)

/-- The whitespace collapser never emits a newline: runs of whitespace
become single spaces and every other emitted character is non-whitespace. -/
theorem newline_not_mem_collapseGo : ∀ (b : Bool) (l : List Char), '\n' ∉ collapseGo b l := by
  intro b l
  induction l generalizing b with
  | nil => intro h; cases h
  | cons c t ih =>
    intro h
    unfold collapseGo at h
    by_cases hc : pyIsSpace c = true
    · rw [if_pos hc] at h
      by_cases hb : b = true
      · rw [if_pos hb] at h; exact ih true h
      · rw [if_neg hb] at h
        rcases List.mem_cons.mp h with h1 | h2
        · exact absurd h1 (by decide)
        · exact ih true h2
    · rw [if_neg hc] at h
      rcases List.mem_cons.mp h with h1 | h2
      · apply hc; rw [← h1]; rfl
      · exact ih false h2

/-- A list without a newline splits into the single line holding it. -/
theorem pySplitNl_eq_single : ∀ (l : List Char), '\n' ∉ l → pySplitNl l = [l] := by
  intro l
  induction l with
  | nil => intro _; rfl
  | cons c t ih =>
    intro h
    by_cases hcn : c = '\n'
    · subst hcn
      exact absurd (List.mem_cons_self _ _) h
    · have ht : '\n' ∉ t := fun hm => h (List.mem_cons_of_mem _ hm)
      have hc : (c == '\n') = false := beq_eq_false_iff_ne.mpr hcn
      unfold pySplitNl
      rw [ih ht, hc]
      simp

/-- On newline-free section text the constraint loop sees a single line and
can append at most one constraint (the final flush). -/
theorem parse_constraints_no_nl_len (t : List Char) (h : '\n' ∉ t) :
    (parse_constraints_fixed t).length ≤ 1 := by
  have h2 : '\n' ∉ pyStrip t := fun hm => h (mem_of_mem_pyStrip hm)
  unfold parse_constraints_fixed
  rw [pySplitNl_eq_single _ h2]
  have hacc : (List.foldl pcfStep { cur := [], name := [], acc := [] } [pyStrip t]).acc = [] := by
    simp only [List.foldl]
    unfold pcfStep
    by_cases h1 : (pyStrip (pyStrip t)).isEmpty = true
    · rw [if_pos h1]
    · rw [if_neg h1]
      by_cases hcl : (hasColon (pyStrip (pyStrip t)) && !startsPM (pyStrip (pyStrip t))) = true
      · rw [if_pos hcl]
        simp
      · rw [if_neg hcl]
  by_cases hg :
      (!(List.foldl pcfStep { cur := [], name := [], acc := [] } [pyStrip t]).cur.isEmpty
        && !(List.foldl pcfStep { cur := [], name := [], acc := [] } [pyStrip t]).name.isEmpty) = true
  · rw [if_pos hg, hacc]
    cases parse_single_constraint_fixed
        (List.foldl pcfStep { cur := [], name := [], acc := [] } [pyStrip t]).name
        (List.foldl pcfStep { cur := [], name := [], acc := [] } [pyStrip t]).cur with
    | none => simp [Option.toList]
    | some c => simp [Option.toList]
  · rw [if_neg hg, hacc]
    simp

/-- C3: for every input text, `_parse_lp_file` builds at most one
constraint.  The whitespace collapse replaces every newline, the extracted
constraints section is a (stripped) sub-sequence of the collapsed content
and hence newline-free, so the line-based splitter of
`_parse_constraints_fixed` receives a single line and its loop can finalize
at most one constraint, regardless of how many `name:` headers the input
contains. -/
theorem c3_at_most_one_constraint (s : String) :
    (parse_lp_text s).constraints.length ≤ 1 := by
  unfold parse_lp_text
  cases hf : findKwCI consKws (collapse_whitespace (remove_comments s.data)) with
  | none => simp [split_sections, hf]
  | some rest =>
    simp only [split_sections, hf, Option.map_some]
    apply parse_constraints_no_nl_len
    intro hm
    have h1 := mem_of_mem_pyStrip hm
    have h2 := mem_of_mem_captureCI consLas rest h1
    have h3 := mem_of_mem_findKwCI consKws _ rest hf h2
    exact newline_not_mem_collapseGo false _ h3

/-- One step of the parsing loop is the `filterMap` image of one step of the
block-collecting loop. -/
theorem pcfStep_eq_cbStep (cur name : List Char)
    (accB : List (List Char × List Char)) (x : List Char) :
    pcfStep
        { cur := cur, name := name
        , acc := accB.filterMap fun b => parse_single_constraint_fixed b.1 b.2 } x
      = { cur := (cbStep { cur := cur, name := name, blocks := accB } x).cur
        , name := (cbStep { cur := cur, name := name, blocks := accB } x).name
        , acc := (cbStep { cur := cur, name := name, blocks := accB } x).blocks.filterMap
            fun b => parse_single_constraint_fixed b.1 b.2 } := by
  unfold pcfStep cbStep
  by_cases h1 : (pyStrip x).isEmpty = true
  · rw [if_pos h1, if_pos h1]
  · rw [if_neg h1, if_neg h1]
    by_cases h2 : (hasColon (pyStrip x) && !startsPM (pyStrip x)) = true
    · rw [if_pos h2, if_pos h2]
      by_cases h3 : (!cur.isEmpty && !name.isEmpty) = true
      · rw [if_pos h3, if_pos h3]
        simp [List.filterMap_append, List.filterMap, Option.toList]
        cases parse_single_constraint_fixed name cur <;> rfl
      · rw [if_neg h3, if_neg h3]
    · rw [if_neg h2, if_neg h2]

/-- The full parsing fold is the `filterMap` image of the block-collecting
fold, for any aligned pair of initial states. -/
theorem pcf_fold_eq_cb_fold :
    ∀ (lines : List (List Char)) (cur name : List Char)
      (accB : List (List Char × List Char)),
    List.foldl pcfStep
        { cur := cur, name := name
        , acc := accB.filterMap fun b => parse_single_constraint_fixed b.1 b.2 } lines
      = { cur := (List.foldl cbStep { cur := cur, name := name, blocks := accB } lines).cur
        , name := (List.foldl cbStep { cur := cur, name := name, blocks := accB } lines).name
        , acc :=
            (List.foldl cbStep { cur := cur, name := name, blocks := accB } lines).blocks.filterMap
              fun b => parse_single_constraint_fixed b.1 b.2 } := by
  intro lines
  induction lines with
  | nil => intro cur name accB; rfl
  | cons x xs ih =>
    intro cur name accB
    have hstep := pcfStep_eq_cbStep cur name accB x
    simp only [List.foldl_cons]
    rw [hstep]
    exact ih _ _ _

/-- Specialization of the fold relation to the empty initial state. -/
theorem pcf_fold_init (lines : List (List Char)) :
    List.foldl pcfStep { cur := [], name := [], acc := [] } lines
      = { cur := (List.foldl cbStep { cur := [], name := [], blocks := [] } lines).cur
        , name := (List.foldl cbStep { cur := [], name := [], blocks := [] } lines).name
        , acc :=
            (List.foldl cbStep { cur := [], name := [], blocks := [] } lines).blocks.filterMap
              fun b => parse_single_constraint_fixed b.1 b.2 } :=
  pcf_fold_eq_cb_fold lines [] [] []

/-- `filterMap` over a one-element list is the `toList` of the function's
result. -/
theorem filterMap_pair_single {a b : Type} (f : a → Option b) (x : a) :
    List.filterMap f [x] = (f x).toList := by
  cases h : f x <;> simp [List.filterMap, h, Option.toList]

/-- C9: a constraint block whose parse fails is dropped (never appended)
while every other block is still processed, in order: the constraints list
is exactly the `filterMap` of the optional per-block parse over the
(name, buffered-expression) blocks the loop finalizes.  The
`parse_single_constraint_fixed` embedding returns `none` exactly on the
source's `except` path (reached by no input, since the body's only fallible
call sits inside its own handler), and the caller's `if constraint_dict:`
guard is what this theorem captures; a parse failure is never fatal — the
fold and the subsequent writing are total functions of the text.  The
side-effecting report (`print` of the constraint name and error) is outside
the pure embedding. -/
theorem c9_failed_constraint_dropped (text : List Char) :
    parse_constraints_fixed text
      = (constraint_blocks text).filterMap fun b => parse_single_constraint_fixed b.1 b.2 := by
  unfold parse_constraints_fixed constraint_blocks
  simp only [pcf_fold_init]
  by_cases hg :
      (!(List.foldl cbStep { cur := [], name := [], blocks := [] }
            (pySplitNl (pyStrip text))).cur.isEmpty
        && !(List.foldl cbStep { cur := [], name := [], blocks := [] }
            (pySplitNl (pyStrip text))).name.isEmpty) = true
  · rw [if_pos hg, if_pos hg]
    simp only [List.filterMap_append, filterMap_pair_single]
  · rw [if_neg hg, if_neg hg]

/-- Evaluation: a non-bracket character passes through the normalizer. -/
theorem normGo_none_cons_ne (c : Char) (t : List Char) (h : c ≠ '[') :
    normGo none (c :: t) = c :: normGo none t := by
  conv_lhs => unfold normGo
  rw [if_neg (by simp [h])]

/-- Evaluation: an opening bracket switches the normalizer into its
buffering state. -/
theorem normGo_none_cons_br (t : List Char) :
    normGo none ('[' :: t) = normGo (some []) t := by
  conv_lhs => unfold normGo
  rw [if_pos (by rfl)]

/-- A digit is not an opening bracket. -/
theorem isDigit_ne_br {c : Char} (h : c.isDigit = true) : c ≠ '[' := by
  intro he
  subst he
  simp at h

/-- Every element of `takeWhile p` satisfies `p`. -/
theorem mem_takeWhile_sat {α : Type} (p : α → Bool) :
    ∀ (l : List α) (a : α), a ∈ l.takeWhile p → p a = true := by
  intro l
  induction l with
  | nil => intro a h; cases h
  | cons b t ih =>
    intro a h
    by_cases hb : p b
    · rw [List.takeWhile_cons_of_pos hb] at h
      rcases List.mem_cons.mp h with h1 | h2
      · exact h1 ▸ hb
      · exact ih a h2
    · rw [List.takeWhile_cons_of_neg hb] at h
      cases h

/-- The head of `dropWhile p` does not satisfy `p`. -/
theorem head_dropWhile_not {α : Type} (p : α → Bool) :
    ∀ (l : List α) (c : α) (t : List α), l.dropWhile p = c :: t → p c = false := by
  intro l
  induction l with
  | nil => intro c t h; cases h
  | cons b u ih =>
    intro c t h
    by_cases hb : p b
    · rw [List.dropWhile_cons_of_pos hb] at h
      exact ih c t h
    · rw [List.dropWhile_cons_of_neg hb] at h
      cases h
      cases hpb : p b
      · rfl
      · exact absurd hpb hb

/-- `takeWhile` over an all-satisfying prefix. -/
theorem takeWhile_sat_append {α : Type} (p : α → Bool) :
    ∀ (m y : List α), (∀ c ∈ m, p c = true) → (m ++ y).takeWhile p = m ++ y.takeWhile p := by
  intro m
  induction m with
  | nil => intro y _; rfl
  | cons b t ih =>
    intro y h
    have hb : p b = true := h b (List.mem_cons_self _ _)
    rw [List.cons_append, List.takeWhile_cons_of_pos hb, ih y fun c hc => h c (List.mem_cons_of_mem _ hc),
      List.cons_append]

/-- `dropWhile` over an all-satisfying prefix. -/
theorem dropWhile_sat_append {α : Type} (p : α → Bool) :
    ∀ (m y : List α), (∀ c ∈ m, p c = true) → (m ++ y).dropWhile p = y.dropWhile p := by
  intro m
  induction m with
  | nil => intro y _; rfl
  | cons b t ih =>
    intro y h
    have hb : p b = true := h b (List.mem_cons_self _ _)
    rw [List.cons_append, List.dropWhile_cons_of_pos hb, ih y fun c hc => h c (List.mem_cons_of_mem _ hc)]

/-- Characters without an opening bracket pass through the normalizer
unchanged, as a prefix. -/
theorem normGo_none_append_no_br :
    ∀ (m x : List Char), (∀ c ∈ m, c ≠ '[') → normGo none (m ++ x) = m ++ normGo none x := by
  intro m
  induction m with
  | nil => intro x _; rfl
  | cons b t ih =>
    intro x h
    rw [List.cons_append, normGo_none_cons_ne b _ (h b (List.mem_cons_self _ _)),
      ih x fun c hc => h c (List.mem_cons_of_mem _ hc), List.cons_append]

/-- Characterization of the normalizer's buffering state: with `ds` the
digits buffered so far (most recent first) and `t` the rest of the input,
the match succeeds exactly when the pending digit run (buffered digits plus
the leading digits of `t`) is nonempty and immediately followed by a
closing bracket. -/
theorem normGo_some_eq :
    ∀ (t ds : List Char),
    normGo (some ds) t =
      if (t.dropWhile Char.isDigit).head? = some ']' ∧ (ds ≠ [] ∨ t.takeWhile Char.isDigit ≠ [])
      then '_' :: ds.reverse ++ t.takeWhile Char.isDigit
            ++ normGo none (t.dropWhile Char.isDigit).tail
      else '[' :: ds.reverse ++ t.takeWhile Char.isDigit
            ++ normGo none (t.dropWhile Char.isDigit) := by
  intro t
  induction t with
  | nil =>
    intro ds
    have hn :
        ¬((([] : List Char).dropWhile Char.isDigit).head? = some ']'
          ∧ (ds ≠ [] ∨ ([] : List Char).takeWhile Char.isDigit ≠ [])) := by simp
    rw [if_neg hn]
    simp [normGo]
  | cons c u ih =>
    intro ds
    by_cases hd : c.isDigit = true
    · rw [List.takeWhile_cons_of_pos hd, List.dropWhile_cons_of_pos hd]
      have hl : normGo (some ds) (c :: u) = normGo (some (c :: ds)) u := by
        conv_lhs => unfold normGo
        rw [if_pos hd]
      rw [hl, ih (c :: ds)]
      by_cases hh : (u.dropWhile Char.isDigit).head? = some ']'
      · rw [if_pos ⟨hh, Or.inl (by simp)⟩, if_pos ⟨hh, Or.inr (by simp)⟩]
        simp [List.reverse_cons, List.append_assoc]
      · rw [if_neg (fun hcc => hh hcc.1), if_neg (fun hcc => hh hcc.1)]
        simp [List.reverse_cons, List.append_assoc]
    · rw [List.takeWhile_cons_of_neg hd, List.dropWhile_cons_of_neg hd]
      by_cases hcb : c = ']'
      · subst hcb
        by_cases hds : ds = []
        · subst hds
          rw [if_neg (by simp)]
          conv_lhs => unfold normGo
          rw [if_neg hd, if_neg (by simp), if_neg (by decide)]
          rw [normGo_none_cons_ne _ _ (by decide)]
          simp
        · rw [if_pos ⟨rfl, Or.inl hds⟩]
          conv_lhs => unfold normGo
          rw [if_neg hd, if_pos (by cases ds with | nil => exact absurd rfl hds | cons a as => rfl)]
          simp
      · rw [if_neg (by simp [hcb])]
        by_cases hbr : c = '['
        · subst hbr
          conv_lhs => unfold normGo
          rw [if_neg hd, if_neg (by simp), if_pos (by rfl)]
          rw [normGo_none_cons_br]
          simp
        · conv_lhs => unfold normGo
          rw [if_neg hd, if_neg (by simp [hcb]), if_neg (by simp [hbr])]
          rw [normGo_none_cons_ne c u hbr]
          simp

/-- `dropWhile` never lengthens a list. -/
theorem length_dropWhile_le' {α : Type} (p : α → Bool) :
    ∀ l : List α, (l.dropWhile p).length ≤ l.length := by
  intro l
  induction l with
  | nil => exact Nat.le_refl 0
  | cons b t ih =>
    by_cases hb : p b
    · rw [List.dropWhile_cons_of_pos hb]
      exact Nat.le_succ_of_le ih
    · rw [List.dropWhile_cons_of_neg hb]

/-- The tail never lengthens a list. -/
theorem length_tail_le' {α : Type} (l : List α) : l.tail.length ≤ l.length := by
  cases l with
  | nil => exact Nat.le_refl 0
  | cons b t => exact Nat.le_succ _

/-- The normalized text following a non-digit character starts with a
non-digit character, and starts with a closing bracket only if the input
did. -/
theorem normGo_none_head (c : Char) (u : List Char) (h : c.isDigit = false) :
    ∃ d r, normGo none (c :: u) = d :: r ∧ d.isDigit = false ∧ (d = ']' → c = ']') := by
  by_cases hbr : c = '['
  · subst hbr
    rw [normGo_none_cons_br, normGo_some_eq u []]
    by_cases hcnd :
        (u.dropWhile Char.isDigit).head? = some ']'
          ∧ (([] : List Char) ≠ [] ∨ u.takeWhile Char.isDigit ≠ [])
    · rw [if_pos hcnd]
      exact ⟨'_', _, rfl, by decide, by decide⟩
    · rw [if_neg hcnd]
      exact ⟨'[', _, rfl, by decide, by decide⟩
  · rw [normGo_none_cons_ne c u hbr]
    exact ⟨c, _, rfl, h, fun hd => hd⟩

/-- Idempotence of the normalizer automaton, by strong induction on the
input length.  A successful replacement emits `_digits`, which renormalizes
to itself; a failed bracket emits the bracket and the scanned digits
literally, and the following normalized text can neither start with a digit
nor (unless the original next character was one) with a closing bracket, so
the failure reproduces itself on the second pass. -/
theorem normGo_none_idem :
    ∀ (n : Nat) (l : List Char), l.length ≤ n →
      normGo none (normGo none l) = normGo none l := by
  intro n
  induction n with
  | zero =>
    intro l h
    have h0 : l = [] := List.length_eq_zero.mp (Nat.le_zero.mp h)
    subst h0
    rfl
  | succ n ih =>
    intro l hl
    cases l with
    | nil => rfl
    | cons c t =>
      have ht : t.length ≤ n := by simpa using hl
      by_cases hbr : c = '['
      · subst hbr
        rw [normGo_none_cons_br, normGo_some_eq t []]
        have htkdig : ∀ x ∈ t.takeWhile Char.isDigit, x ≠ '[' :=
          fun x hx => isDigit_ne_br (mem_takeWhile_sat _ _ _ hx)
        have hdwlen : (t.dropWhile Char.isDigit).length ≤ n :=
          le_trans (length_dropWhile_le' _ t) ht
        by_cases hcnd :
            (t.dropWhile Char.isDigit).head? = some ']'
              ∧ (([] : List Char) ≠ [] ∨ t.takeWhile Char.isDigit ≠ [])
        · rw [if_pos hcnd]
          rw [List.reverse_nil, List.singleton_append, List.cons_append]
          rw [normGo_none_cons_ne _ _ (by decide),
            normGo_none_append_no_br _ _ htkdig,
            ih _ (le_trans (length_tail_le' _) hdwlen)]
        · rw [if_neg hcnd]
          rw [List.reverse_nil, List.singleton_append, List.cons_append]
          rw [normGo_none_cons_br]
          cases hdwe : t.dropWhile Char.isDigit with
          | nil =>
            have h0 : normGo none ([] : List Char) = [] := rfl
            rw [h0, List.append_nil]
            have h1 : (t.takeWhile Char.isDigit).takeWhile Char.isDigit
                = t.takeWhile Char.isDigit := by
              have := takeWhile_sat_append Char.isDigit (t.takeWhile Char.isDigit) []
                (fun x hx => mem_takeWhile_sat _ _ _ hx)
              simpa using this
            have h2 : (t.takeWhile Char.isDigit).dropWhile Char.isDigit = [] := by
              have := dropWhile_sat_append Char.isDigit (t.takeWhile Char.isDigit) []
                (fun x hx => mem_takeWhile_sat _ _ _ hx)
              simpa using this
            rw [normGo_some_eq _ []]
            rw [if_neg (by simp [h2])]
            simp [h1, h2, h0]
          | cons cb tb =>
            rw [hdwe] at hdwlen
            have hcb : cb.isDigit = false := head_dropWhile_not Char.isDigit t cb tb hdwe
            obtain ⟨d, r, hdr, hdnd, hdcb⟩ := normGo_none_head cb tb hcb
            rw [hdr]
            rw [normGo_some_eq _ []]
            rw [takeWhile_sat_append _ _ _ fun x hx => mem_takeWhile_sat _ _ _ hx,
              dropWhile_sat_append _ _ _ fun x hx => mem_takeWhile_sat _ _ _ hx]
            rw [List.takeWhile_cons_of_neg (by simp [hdnd]),
              List.dropWhile_cons_of_neg (by simp [hdnd])]
            have hcondf :
                ¬((d :: r).head? = some ']'
                  ∧ (([] : List Char) ≠ []
                      ∨ t.takeWhile Char.isDigit ++ [] ≠ [])) := by
              rintro ⟨hdeq, hor⟩
              have hdj : d = ']' := Option.some.inj hdeq
              have hcj : cb = ']' := hdcb hdj
              apply hcnd
              constructor
              · rw [hdwe, hcj]
                rfl
              · rcases hor with h1 | h2
                · exact absurd rfl h1
                · exact Or.inr (by simpa using h2)
            rw [if_neg hcondf]
            have hback : normGo none (d :: r) = d :: r := by
              rw [← hdr]
              exact ih _ hdwlen
            rw [hback]
            simp
      · rw [normGo_none_cons_ne c t hbr, normGo_none_cons_ne c _ hbr, ih t ht]

/-- C8: the variable-name normalizer is idempotent on every string —
normalizing an already-normalized name returns it unchanged, where the
normalizer rewrites every bracketed digit run `name[k]` to `name_k` and
leaves all other text alone. -/
theorem c8_normalize_idempotent (s : String) :
    String.mk (normalize_var_name (String.mk (normalize_var_name s.data)).data)
      = String.mk (normalize_var_name s.data) := by
  show String.mk (normalize_var_name (normalize_var_name s.data))
      = String.mk (normalize_var_name s.data)
  exact congrArg String.mk (normGo_none_idem s.data.length s.data (Nat.le_refl _))

/-- The merge loop only consumes lines: the remainder is never longer than
the input. -/
theorem mergeCont_snd_le :
    ∀ (ls : List (List Char)) (buf : List Char),
      (mergeCont buf ls).2.length ≤ ls.length := by
  intro ls
  induction ls with
  | nil => intro buf; exact Nat.le_refl _
  | cons nl rest ih =>
    intro buf
    unfold mergeCont
    by_cases h1 : ((stripLine nl).isEmpty || (hasColon (stripLine nl) && !startsPM (stripLine nl))) = true
    · rw [if_pos h1]
    · rw [if_neg h1]
      by_cases h2 : endsOpNum (buf ++ ' ' :: stripLine nl) = true
      · rw [if_pos h2]
        exact Nat.le_succ _
      · rw [if_neg h2]
        exact Nat.le_succ_of_le (ih _)

/-- The fuel of the outer repair loop is irrelevant once it exceeds the
number of remaining lines. -/
theorem fixGo_fuel_eq :
    ∀ (n : Nat) (lines : List (List Char)) (m : Nat),
      lines.length < n → lines.length < m → fixGo n lines = fixGo m lines := by
  intro n
  induction n with
  | zero => intro lines m h1 _; exact absurd h1 (Nat.not_lt_zero _)
  | succ n ih =>
    intro lines m h1 h2
    cases m with
    | zero => exact absurd h2 (Nat.not_lt_zero _)
    | succ m =>
      cases lines with
      | nil => rfl
      | cons l ls =>
        have hls : ls.length < n := by simpa using h1
        have hls2 : ls.length < m := by simpa using h2
        unfold fixGo
        by_cases hc : (hasColon (stripLine l) && !endsOpNum (stripLine l)) = true
        · rw [if_pos hc, if_pos hc]
          have hmr : (mergeCont (stripLine l) ls).2.length < n :=
            Nat.lt_of_le_of_lt (mergeCont_snd_le ls _) hls
          have hmr2 : (mergeCont (stripLine l) ls).2.length < m :=
            Nat.lt_of_le_of_lt (mergeCont_snd_le ls _) hls2
          rw [ih _ m hmr hmr2]
        · rw [if_neg hc, if_neg hc]
          rw [ih _ m hls hls2]

/-- C10: characterization of the LP line-repair post-processor.  First
conjunct: a raw line starts a multi-line constraint merge exactly when its
stripped form contains a colon and does not already end in a relational
operator followed by a number; the emitted line for a merge is the merged
buffer with every comma removed, and any other line is emitted with its
trailing commas removed, with processing continuing on the remaining lines
in both cases.  Second conjunct: the merge loop stops before a blank line
or a line that looks like a new constraint/section start (colon present,
not starting with a sign), and otherwise space-appends the stripped line,
stopping after it when the merged buffer now ends in operator+number. -/
theorem c10_line_repair_characterization :
    (∀ (l : List Char) (ls : List (List Char)),
      fix_lp_lines (l :: ls)
        = if (hasColon (stripLine l) && !endsOpNum (stripLine l)) = true
          then removeCommas (mergeCont (stripLine l) ls).1
                :: fix_lp_lines (mergeCont (stripLine l) ls).2
          else rstripCommas (stripLine l) :: fix_lp_lines ls)
    ∧ (∀ (buf nl : List Char) (ls : List (List Char)),
      mergeCont buf (nl :: ls)
        = if ((stripLine nl).isEmpty
              || (hasColon (stripLine nl) && !startsPM (stripLine nl))) = true
          then (buf, nl :: ls)
          else if endsOpNum (buf ++ ' ' :: stripLine nl) = true
          then (buf ++ ' ' :: stripLine nl, ls)
          else mergeCont (buf ++ ' ' :: stripLine nl) ls) := by
  constructor
  · intro l ls
    show fixGo ((l :: ls).length + 1) (l :: ls) = _
    have hlen : (l :: ls).length + 1 = ls.length + 1 + 1 := by simp
    rw [hlen]
    unfold fixGo
    by_cases hc : (hasColon (stripLine l) && !endsOpNum (stripLine l)) = true
    · rw [if_pos hc, if_pos hc]
      have h1 : (mergeCont (stripLine l) ls).2.length < ls.length + 1 :=
        Nat.lt_of_le_of_lt (mergeCont_snd_le ls _) (Nat.lt_succ_self _)
      rw [fixGo_fuel_eq _ _ ((mergeCont (stripLine l) ls).2.length + 1) h1 (Nat.lt_succ_self _)]
      rfl
    · rw [if_neg hc, if_neg hc]
      rfl
  · intro buf nl ls
    rfl
